import Mathlib

/-!
Verification of the natural-language specification of the moor server
against a shallow embedding of its Rust sources.

Each section embeds one piece of the source code as executable Lean
definitions (machine maps become association lists, fallible calls become
`Except`/`Option`, unbounded loops take an explicit fuel argument), and the
theorems at the end of the file settle the claims about those definitions.
-/

set_option maxRecDepth 4000

/-! ## Section 1: verb-name wildcard matching

Embedding of `verbname_cmp` from `src/moor-value/src/util/mod.rs`.
The Rust function walks the verb name and the candidate with two peekable
char iterators and a `had_wildcard` flag; `vncmp` is the same loop with the
two remaining iterators and the flag as arguments.
-/

/-- The loop of `verbname_cmp`: first argument is the rest of the verb name,
second the rest of the candidate, third the `had_wildcard` flag. -/
def vncmp : List Char → List Char → Bool → Bool
  | [], w, _ => w.isEmpty
  | v :: vrest, w, hw =>
    if v = '*' then
      if vrest.isEmpty || w.isEmpty then true
      else vncmp vrest w true
    else
      match w with
      | [] => hw
      | wc :: wrest => if wc = v then vncmp vrest wrest hw else false

/-- Model of `verbname_cmp(vname, candidate)` from `moor-value/src/util/mod.rs`. -/
def verbname_cmp (vname candidate : List Char) : Bool :=
  vncmp vname candidate false

/-! ## Section 2: MOO string equality and hashing

Embedding of `impl PartialEq for Str` and `impl Hash for Str` from
`src/crates/values/src/var/string.rs`. Strings are modelled as lists of
character codes (`Nat`). `eq_ignore_ascii_case` compares pointwise after
ASCII-lowercasing each code; the `Hash` impl hashes `s.to_lowercase()`,
whose per-character behaviour is abstracted by a function `g` constrained
to agree with Unicode lowercasing on the ASCII letters.
-/

/-- Model of `u8::to_ascii_lowercase`: fold the ASCII uppercase letters (65..90)
down by 32, leave everything else alone. -/
def toAsciiLowercase (c : Nat) : Nat :=
  if 65 ≤ c ∧ c ≤ 90 then c + 32 else c

/-- Model of `eq_ignore_ascii_case` on two strings: equal length and pointwise equal
after `toAsciiLowercase`, exactly as the slice implementation in Rust. -/
def eqIgnoreAsciiCase : List Nat → List Nat → Bool
  | [], [] => true
  | a :: s, b :: t => (toAsciiLowercase a = toAsciiLowercase b) && eqIgnoreAsciiCase s t
  | _, _ => false

/-- The byte stream fed to the hasher by `impl Hash for Str`:
`self.to_lowercase()`, i.e. every character replaced by its Unicode
lowercase expansion `g`. -/
def strHashInput (g : Nat → List Nat) (s : List Nat) : List Nat :=
  s.flatMap g

/-! ## Section 3: transaction commit retry loop

Embedding of `Transaction::commit` from
`src/crates/db/src/tuplebox/transaction.rs`. One iteration of the retry
loop runs `prepare_commit_set` followed by `try_commit`; the function
`attempt` abstracts the outcome of the i-th such iteration (`success`,
a `TupleVersionConflict` raised by preparation and propagated by `?`, or
a `RelationContentionConflict` from `try_commit`).
-/

inductive AttemptResult
  | success
  | versionConflict
  | contention
deriving DecidableEq

inductive CommitError
  | TupleVersionConflict
  | RelationContentionConflict
deriving DecidableEq

/-- The `'retry: loop` body of `Transaction::commit`, with the `tries`
counter and the index of the next attempt made explicit. Returns the
result handed to the caller together with the total number of
prepare/apply attempts performed. -/
def commitLoop (attempt : Nat → AttemptResult) (tries idx : Nat) :
    Except CommitError Unit × Nat :=
  match attempt idx with
  | .success => (Except.ok (), idx + 1)
  | .versionConflict => (Except.error CommitError.TupleVersionConflict, idx + 1)
  | .contention =>
    if tries + 1 > 3 then (Except.error CommitError.RelationContentionConflict, idx + 1)
    else commitLoop attempt (tries + 1) (idx + 1)
termination_by 4 - tries
decreasing_by omega

/-- Model of `Transaction::commit`: enter the retry loop with `tries = 0`. -/
def Transaction.commit (attempt : Nat → AttemptResult) :
    Except CommitError Unit × Nat :=
  commitLoop attempt 0 0

/-! ## Section 4: command verb dispatch order

Embedding of `Scheduler::submit_command_task` from
`src/moor-lib/src/tasks/scheduler.rs`. `find` abstracts
`ws.find_command_verb_on(perms, obj, &pc)` for the parsed command at hand;
`V` is the type of verb infos. The returned pair is the `(vloc, verbinfo)`
against which the task is started; `NoCommandMatch` means no task is
created.
-/

inductive SchedulerError
  | NoCommandMatch
deriving DecidableEq

/-- The candidate-search cascade of `submit_command_task`: player, then the
player's location, then the parsed direct object, then the parsed indirect
object. -/
def submit_command_task {V : Type} (find : Int → Option V)
    (player loc dobj iobj : Int) : Except SchedulerError (Int × V) :=
  match find player with
  | some vi => Except.ok (player, vi)
  | none =>
    match find loc with
    | some vi => Except.ok (loc, vi)
    | none =>
      match find dobj with
      | some vi => Except.ok (dobj, vi)
      | none =>
        match find iobj with
        | some vi => Except.ok (iobj, vi)
        | none => Except.error SchedulerError.NoCommandMatch

/-- Search order as the spec describes it: the first object of
`[player, loc, dobj, iobj]` on which a verb matches. -/
def firstCommandMatch {V : Type} (find : Int → Option V)
    (player loc dobj iobj : Int) : Option (Int × V) :=
  [player, loc, dobj, iobj].findSome? fun o => (find o).map fun vi => (o, vi)

/-! ## Section 5: caller_perms

Embedding of `VMExecState::caller_perms` from
`src/crates/kernel/src/vm/exec_state.rs`. An activation is reduced to the
two fields the function reads: `bfIndex` (set on the synthetic frame of a
built-in call, pushed by `Activation::for_bf_call`) and `permissions`.
Stacks are written top-first, i.e. the list is `self.stack.iter().rev()`.
-/

/-- Value `#-1`, the `NOTHING` sentinel object id. -/
def NOTHING : Int := -1

structure Activation where
  bfIndex : Option Nat
  permissions : Int
deriving DecidableEq

/-- Model of `caller_perms`: filter out built-in frames, skip one, take the
permissions of the next, defaulting to `NOTHING`. `stackTopFirst` is the
activation stack with the current (top) frame first. -/
def caller_perms (stackTopFirst : List Activation) : Int :=
  ((((stackTopFirst.filter fun a => a.bfIndex.isNone).drop 1).head?).map
    Activation.permissions).getD NOTHING

/-- The behaviour asserted by the claim: the permissions of the first
non-built-in frame strictly below the current (top) frame, whether or not
the top frame is a built-in, `NOTHING` when no such frame exists. -/
def caller_perms_claimed (stackTopFirst : List Activation) : Int :=
  match stackTopFirst with
  | [] => NOTHING
  | _top :: below =>
    (((below.filter fun a => a.bfIndex.isNone).head?).map
      Activation.permissions).getD NOTHING

/-- The topmost non-built-in frame together with the frames strictly below
it, if any. -/
def topmostNonBf : List Activation → Option (Activation × List Activation)
  | [] => none
  | a :: rest => if a.bfIndex.isNone then some (a, rest) else topmostNonBf rest

/-- What `caller_perms` actually computes, phrased the way the spec should:
the permissions of the first non-built-in frame strictly below the topmost
non-built-in frame. -/
def caller_perms_amended (stackTopFirst : List Activation) : Int :=
  match topmostNonBf stackTopFirst with
  | none => NOTHING
  | some (_, below) =>
    (((below.filter fun a => a.bfIndex.isNone).head?).map
      Activation.permissions).getD NOTHING

/-! ## Section 6: client token validation

Embedding of `RpcServer::validate_client_token` from
`src/crates/daemon/src/rpc_server.rs`. Tokens and client ids are opaque
(`Nat`). `parsePayload` abstracts the external PASETO crate plus the JSON
payload walk: `none` for any signature/parse failure, `some cid` when the
token verifies and embeds `client_id = cid`. The token cache
(`client_token_cache`) maps a token to the `Instant` at which it was
inserted; `now` is the current instant, so `now - t` is `t.elapsed()`.
-/

structure RpcCacheState where
  entries : List (Nat × Nat)
deriving DecidableEq

inductive RpcMessageError
  | PermissionDenied
deriving DecidableEq

/-- Association-list lookup, first matching key wins (a map read). -/
def lookupN (m : List (Nat × Nat)) (k : Nat) : Option Nat :=
  (m.find? fun p => p.1 = k).map fun p => p.2

/-- Model of `validate_client_token(token, client_id)`. Returns the updated cache on
success. The cache fast path returns `Ok` whenever the token has an entry
at most 60 seconds old, without consulting `client_id`. -/
def validate_client_token (parsePayload : Nat → Option Nat) (now : Nat)
    (st : RpcCacheState) (token client_id : Nat) :
    Except RpcMessageError RpcCacheState :=
  match lookupN st.entries token with
  | some t =>
    if now - t ≤ 60 then Except.ok st
    else validate_client_token_slow parsePayload now st token client_id
  | none => validate_client_token_slow parsePayload now st token client_id
where
  /-- The slow path: verify the signature, extract `client_id` from the
  payload, compare with the frame client id, cache on success. -/
  validate_client_token_slow (parsePayload : Nat → Option Nat) (now : Nat)
      (st : RpcCacheState) (token client_id : Nat) :
      Except RpcMessageError RpcCacheState :=
    match parsePayload token with
    | none => Except.error RpcMessageError.PermissionDenied
    | some token_client_id =>
      if client_id ≠ token_client_id then Except.error RpcMessageError.PermissionDenied
      else Except.ok ⟨(token, now) :: st.entries⟩

/-! ## Section 7: transient relation insert

Embedding of `TransientRelation::insert_tuple` from
`src/crates/db/src/tuplebox/transaction.rs` (lines 348-360). The
`domain_tuples` hash map is an association list from domain byte strings
to codomain byte strings. `HashMap::insert` returns the value previously
stored under the key; after the `contains_key` guard that previous value
is always `None`, which `.map(|_| ()).ok_or(TupleError::Duplicate)` turns
into `Err(Duplicate)` even though the map was just mutated.
-/

inductive TupleError
  | NotFound
  | Duplicate
deriving DecidableEq

/-- A transient relation reduced to its `domain_tuples` map (the relations
made by `new_relation` have `codomain_domain = None`). -/
abbrev TransientRel := List (List Nat × List Nat)

/-- Model of `HashMap::insert`: returns the updated map and the previous value
stored under the key, if any. -/
def hashMapInsert (m : TransientRel) (k v : List Nat) :
    TransientRel × Option (List Nat) :=
  match m.find? fun p => p.1 = k with
  | some p => (m.map fun q => if q.1 = k then (k, v) else q, some p.2)
  | none => (m ++ [(k, v)], none)

/-- Model of `TransientRelation::insert_tuple`: the guard, then the
`insert(..).map(|_| ()).ok_or(Duplicate)` tail, returned together with the
mutated map. -/
def transient_insert_tuple (rel : TransientRel) (domain codomain : List Nat) :
    Except TupleError Unit × TransientRel :=
  if rel.any fun p => p.1 = domain then (Except.error TupleError.Duplicate, rel)
  else
    let r := hashMapInsert rel domain codomain
    (match r.2.map fun _ => () with
     | some u => Except.ok u
     | none => Except.error TupleError.Duplicate, r.1)

/-! ## Section 8: object location and contents

Embedding of `RocksDbTx::set_object_location` from
`src/moor-lib/src/db/rocksdb/tx_db_impl_objects.rs`. The two column
families the function touches are association lists. The small helpers of
`tx_db_impl.rs` are not part of the provided sources; they are modelled
from the spec: `get_oid_or_nothing` reads the oid-keyed value and yields
`NOTHING` when absent, `get_objset` reads an object set and fails when the
key is absent, `set_oid_value`/`set_objset` write. `ObjSet` (from
`moor-value`) is modelled from the spec as a duplicate-free list of oids.
-/

/-- Association-list lookup for `Int`-keyed column families; the first
matching key wins. -/
def lookupI {α : Type} (m : List (Int × α)) (k : Int) : Option α :=
  (m.find? fun p => p.1 = k).map fun p => p.2

/-- Association-list update: replace the first binding of `k`, or append a
new binding. -/
def setI {α : Type} : List (Int × α) → Int → α → List (Int × α)
  | [], k, v => [(k, v)]
  | p :: rest, k, v => if p.1 = k then (k, v) :: rest else p :: setI rest k v

/-- Modelled from the spec: `ObjSet::with_removed` drops the given oid. -/
def withRemoved (s : List Int) (x : Int) : List Int :=
  s.filter fun y => ¬ y = x

/-- Modelled from the spec: `ObjSet::with_inserted` adds the given oid if
it is not already present. -/
def withInserted (s : List Int) (x : Int) : List Int :=
  if x ∈ s then s else s ++ [x]

inductive WorldStateError
  | RecursiveMove (what loc : Int)
  | ObjectNotFound
deriving DecidableEq

/-- The `ObjectLocation` and `ObjectContents` column families. -/
structure LocState where
  location : List (Int × Int)
  contents : List (Int × List Int)
deriving DecidableEq

/-- Read `get_object_location` (via `get_oid_or_nothing`): a missing entry reads
as `NOTHING`. -/
def get_object_location (st : LocState) (o : Int) : Int :=
  (lookupI st.location o).getD NOTHING

/-- The contents set of an object as a later read would see it (empty when
the column family has no entry). -/
def contentsOf (st : LocState) (l : Int) : List Int :=
  (lookupI st.contents l).getD []

/-- The recursive-move detection loop at the top of `set_object_location`:
walk the location chain upward from `oid`, stopping at `NOTHING` (no cycle)
or at `what` (recursive move). The loop in the source is unbounded, so the
embedding takes fuel; `none` means the walk did not finish within `fuel`
steps (only possible when the stored location chain itself has a cycle). -/
def recCheck (st : LocState) (what : Int) : Nat → Int → Option Bool
  | 0, _ => none
  | fuel + 1, oid =>
    if oid = NOTHING then some false
    else if oid = what then some true
    else recCheck st what fuel (get_object_location st oid)

/-- One step up the location chain: from `x` (a real object) to its stored
location. `set_object_location` must fail with `RecursiveMove` exactly when
`what` is reachable from the new location through this relation. -/
def locStep (st : LocState) (x y : Int) : Prop :=
  x ≠ NOTHING ∧ get_object_location st x = y

/-- The tail of `set_object_location` shared by both old-location branches:
store the new location, then (unless the new location is `NOTHING`) add
`what` to the new location contents. -/
def solProceed (st : LocState) (what new_location : Int) :
    Except WorldStateError Unit × LocState :=
  let st2 : LocState := { st with location := setI st.location what new_location }
  if new_location = NOTHING then (Except.ok (), st2)
  else
    let newSet := (lookupI st2.contents new_location).getD []
    (Except.ok (),
      { st2 with contents := setI st2.contents new_location (withInserted newSet what) })

/-- Model of `set_object_location(what, new_location)`. The result pairs the value
the function returns with the column-family state when it returns; `none`
means the recursive-move walk never terminated. -/
def set_object_location (fuel : Nat) (st : LocState) (what new_location : Int) :
    Option (Except WorldStateError Unit × LocState) :=
  match recCheck st what fuel new_location with
  | none => none
  | some true =>
    some (Except.error (WorldStateError.RecursiveMove what new_location), st)
  | some false =>
    if get_object_location st what = NOTHING then
      some (solProceed st what new_location)
    else if get_object_location st what = new_location then
      some (Except.ok (), st)
    else
      match lookupI st.contents (get_object_location st what) with
      | none => some (Except.error WorldStateError.ObjectNotFound, st)
      | some oldSet =>
        some (solProceed
          { st with
            contents :=
              setI st.contents (get_object_location st what) (withRemoved oldSet what) }
          what new_location)

/-! ## Section 9: object parenting and property definitions

Embedding of `RocksDbTx::set_object_parent`,
`closest_common_ancestor_with_ancestors` and `descendants` from
`src/moor-lib/src/db/rocksdb/tx_db_impl_objects.rs`. Propdefs are reduced
to the two fields the function reads (`uuid`, `definer`). The `PropDefs`
container operations (`with_all_removed`, `with_all_added`) and
`get_propdefs` live in crates outside the provided sources and are
modelled from the spec: a propdef list per object, removal by uuid,
addition by append. The `HashSet` of ancestors and the `HashMap` of
pruned descendant propdef lists are association structures in insertion
order.
-/

structure PropDef where
  uuid : Nat
  definer : Int
deriving DecidableEq

/-- The column families touched by reparenting. -/
structure ObjState where
  parent : List (Int × Int)
  children : List (Int × List Int)
  propdefs : List (Int × List PropDef)
  propvals : List ((Int × Nat) × Int)
deriving DecidableEq

/-- Read `get_object_parent` via `get_oid_or_nothing`. -/
def getParent (st : ObjState) (o : Int) : Int :=
  (lookupI st.parent o).getD NOTHING

/-- Read `get_oid_value` on the parent column family: `none` is the
object-not-found error recognised by `err_is_objnjf`. -/
def getParentEntry (st : ObjState) (o : Int) : Option Int :=
  lookupI st.parent o

/-- Read `get_object_children`: missing entries read as the empty set (the
source unwraps with `ObjSet::new`). -/
def childrenOf (st : ObjState) (o : Int) : List Int :=
  (lookupI st.children o).getD []

/-- Modelled from the spec: `get_propdefs` reads an object propdef list,
empty when absent. -/
def getPropdefs (st : ObjState) (o : Int) : List PropDef :=
  (lookupI st.propdefs o).getD []

/-- Write `update_propdefs`: persist a propdef list for an object. -/
def update_propdefs (st : ObjState) (o : Int) (defs : List PropDef) : ObjState :=
  { st with propdefs := setI st.propdefs o defs }

/-- Write `update_object_children`. -/
def update_object_children (st : ObjState) (o : Int) (cs : List Int) : ObjState :=
  { st with children := setI st.children o cs }

/-- Write `delete_cf` on `ObjectPropertyValue` under `composite_key_for(o, p)`. -/
def deletePropVal (st : ObjState) (o : Int) (u : Nat) : ObjState :=
  { st with propvals := st.propvals.filter fun p => ¬ (p.1.1 = o ∧ p.1.2 = u) }

/-- The locally stored value of a property, if any. -/
def propValOf (st : ObjState) (o : Int) (u : Nat) : Option Int :=
  (st.propvals.find? fun p => p.1.1 = o ∧ p.1.2 = u).map fun p => p.2

/-- Modelled from the spec: `PropDefs::with_all_removed` filters out the
propdefs whose uuid is listed. -/
def with_all_removed (defs : List PropDef) (uuids : List Nat) : List PropDef :=
  defs.filter fun p => ¬ p.uuid ∈ uuids

/-- Modelled from the spec: `PropDefs::with_all_added` appends the new
propdefs. -/
def with_all_added (defs news : List PropDef) : List PropDef :=
  defs ++ news

/-- Model of a `HashSet::insert` in insertion order. -/
def hsInsert (s : List Int) (x : Int) : List Int :=
  if x ∈ s then s else s ++ [x]

/-- The loop of `closest_common_ancestor_with_ancestors`: walks both parent
chains in lockstep accumulating ancestor sets. Fuel bounds the number of
iterations; `none` means the loop did not finish (a pre-existing parent
cycle). -/
def ccaLoop (st : ObjState) :
    Nat → Int → Int → List Int → List Int →
    Option (Option Int × List Int × List Int)
  | 0, _, _, _, _ => none
  | fuel + 1, searchA, searchB, ancA, ancB =>
    if searchA = NOTHING ∧ searchB = NOTHING then some (none, ancA, ancB)
    else if searchA ∈ ancB then some (some searchA, ancA, ancB)
    else if searchB ∈ ancA then some (some searchB, ancA, ancB)
    else
      let stepA := if searchA = NOTHING then (searchA, ancA)
        else (getParent st searchA, hsInsert ancA searchA)
      let stepB := if searchB = NOTHING then (searchB, ancB)
        else (getParent st searchB, hsInsert ancB searchB)
      ccaLoop st fuel stepA.1 stepB.1 stepA.2 stepB.2

/-- Model of `closest_common_ancestor_with_ancestors(a, b)`. -/
def closest_common_ancestor_with_ancestors (st : ObjState) (fuel : Nat)
    (a b : Int) : Option (Option Int × List Int × List Int) :=
  ccaLoop st fuel a b [] []

/-- The breadth-ish scan of `descendants`: the Rust search queue is a `Vec`
popped from the back; the queue argument here keeps that `Vec` reversed so
the pop is the list head. The accumulated result is every child list the
iterator yielded, in order. -/
def descLoop (st : ObjState) : Nat → List Int → List Int → Option (List Int)
  | _, [], acc => some acc
  | 0, _ :: _, _ => none
  | fuel + 1, x :: q, acc =>
    let cs := childrenOf st x
    descLoop st fuel (cs.reverse ++ q) (acc ++ cs)

/-- Model of `descendants(obj)`. -/
def descendants (st : ObjState) (fuel : Nat) (o : Int) : Option (List Int) :=
  descLoop st fuel [o] []

/-- Remove a key from the pruned-descendant map (`HashMap::remove`),
returning the removed propdef list if present. -/
def pdMapRemove (m : List (Int × List PropDef)) (k : Int) :
    Option (List PropDef) × List (Int × List PropDef) :=
  ((m.find? fun p => p.1 = k).map fun p => p.2, m.filter fun p => ¬ p.1 = k)

/-- Strip from `o` itself every propdef defined by one of the severed
ancestors: delete the stored values and persist the pruned list. -/
def sopStripProps (st : ObjState) (o : Int) (oldAncestors : List Int) : ObjState :=
  let old_props := getPropdefs st o
  let delort := (old_props.filter fun p => p.definer ∈ oldAncestors).map PropDef.uuid
  let st1 := delort.foldl (fun s u => deletePropVal s o u) st
  update_propdefs st1 o (with_all_removed old_props delort)

/-- The per-descendant strip loop: delete the stored values of inherited
propdefs and stash the pruned lists in `descendant_props` without
persisting them. -/
def sopDescStrip (st : ObjState) (descs : List Int) (oldAncestors : List Int) :
    ObjState × List (Int × List PropDef) :=
  descs.foldl
    (fun acc c =>
      let old_props := getPropdefs acc.1 c
      let inherited := (old_props.filter fun p => p.definer ∈ oldAncestors).map PropDef.uuid
      let s1 := inherited.foldl (fun t u => deletePropVal t c u) acc.1
      (s1, setI acc.2 c (with_all_removed old_props inherited)))
    (st, [])

/-- The tail of `set_object_parent` after the old-parent pruning: write the
new parent, maintain the new parent children set, collect the propdefs
defined on the new ancestors, and run the final loop over the new
descendant tree (and `o`). The final loop faithfully reproduces the
source, which persists every computed list under `o`
(`self.update_propdefs(o, c_props)`), not under the descendant `c`. -/
def sopFinish (fuel : Nat) (st : ObjState) (o new_parent : Int)
    (newAncestors : List Int) (descendant_props : List (Int × List PropDef)) :
    Option (Except WorldStateError Unit × ObjState) :=
  let st4 : ObjState := { st with parent := setI st.parent o new_parent }
  if new_parent = NOTHING then some (Except.ok (), st4)
  else
    let st5 := update_object_children st4 new_parent
      (withInserted (childrenOf st4 new_parent) o)
    let new_props := newAncestors.flatMap fun a =>
      (getPropdefs st5 a).filter fun p => p.definer = a
    match descendants st5 fuel o with
    | none => none
    | some descs2 =>
      let final := (descs2 ++ [o]).foldl
        (fun acc c =>
          let taken := pdMapRemove acc.2 c
          let c_props := taken.1.getD (getPropdefs acc.1 c)
          (update_propdefs acc.1 o (with_all_added c_props new_props), taken.2))
        (st5, descendant_props)
      some (Except.ok (), final.1)

/-- Model of `set_object_parent(o, new_parent)`: ancestor analysis, strip of severed
propdefs on `o` and on every descendant, old-parent children pruning with
the `old_parent == new_parent` early return, then `sopFinish`. `none`
means one of the unbounded loops never terminated. -/
def set_object_parent (fuel : Nat) (st : ObjState) (o new_parent : Int) :
    Option (Except WorldStateError Unit × ObjState) :=
  match closest_common_ancestor_with_ancestors st fuel new_parent o with
  | none => none
  | some (_shared, newAncestors, oldAncestors) =>
    let st1 := sopStripProps st o oldAncestors
    match descendants st1 fuel o with
    | none => none
    | some descs =>
      let stripped := sopDescStrip st1 descs oldAncestors
      match getParentEntry stripped.1 o with
      | some old_parent =>
        if old_parent = new_parent then some (Except.ok (), stripped.1)
        else
          let st3 := if old_parent = NOTHING then stripped.1
            else update_object_children stripped.1 old_parent
              ((childrenOf stripped.1 old_parent).filter fun x => ¬ x = o)
          sopFinish fuel st3 o new_parent newAncestors stripped.2
      | none => sopFinish fuel stripped.1 o new_parent newAncestors stripped.2

/-- Decidable equality for `Except` results, used to evaluate the models
at concrete inputs. -/
instance {ε α : Type} [DecidableEq ε] [DecidableEq α] : DecidableEq (Except ε α) :=
  fun x y =>
    match x, y with
    | .ok a, .ok b =>
      if h : a = b then isTrue (by rw [h])
      else isFalse (by intro hh; cases hh; exact h rfl)
    | .error a, .error b =>
      if h : a = b then isTrue (by rw [h])
      else isFalse (by intro hh; cases hh; exact h rfl)
    | .ok _, .error _ => isFalse (by intro hh; cases hh)
    | .error _, .ok _ => isFalse (by intro hh; cases hh)

/-! ### Lemmas about `vncmp` -/

/-- Cons-on-both-sides characterisation of list prefixes, self-contained. -/
theorem cons_pfx_cons {α : Type} (a b : α) (l₁ l₂ : List α) :
    (a :: l₁ <+: b :: l₂) ↔ a = b ∧ l₁ <+: l₂ := by
  constructor
  · rintro ⟨t, ht⟩
    injection ht with h1 h2
    exact ⟨h1, t, h2⟩
  · rintro ⟨rfl, t, rfl⟩
    exact ⟨t, rfl⟩

/-- With the wildcard flag set and a star-free remaining name, the loop
accepts exactly the prefixes of the remaining name. -/
theorem vncmp_true_iff (vs : List Char) : ∀ (w : List Char), '*' ∉ vs →
    (vncmp vs w true = true ↔ w <+: vs) := by
  induction vs with
  | nil =>
    intro w _
    cases w with
    | nil =>
      constructor
      · intro _; exact ⟨[], rfl⟩
      · intro _; rfl
    | cons c cr =>
      constructor
      · intro h; exact absurd h (by simp [vncmp])
      · rintro ⟨t, ht⟩; cases ht
  | cons v vr ih =>
    intro w hstar
    have hv : v ≠ '*' := fun h => hstar (h ▸ List.mem_cons_self v vr)
    have hvr : '*' ∉ vr := fun h => hstar (List.mem_cons_of_mem v h)
    cases w with
    | nil =>
      constructor
      · intro _; exact ⟨v :: vr, rfl⟩
      · intro _
        show (if v = '*' then _ else _) = true
        rw [if_neg hv]
    | cons c cr =>
      show (if v = '*' then _ else if c = v then vncmp vr cr true else false) = true ↔ _
      rw [if_neg hv, cons_pfx_cons]
      by_cases hc : c = v
      · rw [if_pos hc, ih cr hvr]
        simp [hc]
      · rw [if_neg hc]
        simp [hc]

/-- With the wildcard flag clear and a star-free remaining name, the loop
accepts exactly the full name itself. -/
theorem vncmp_false_iff (vs : List Char) : ∀ (w : List Char), '*' ∉ vs →
    (vncmp vs w false = true ↔ w = vs) := by
  induction vs with
  | nil =>
    intro w _
    cases w with
    | nil => simp [vncmp]
    | cons c cr => simp [vncmp]
  | cons v vr ih =>
    intro w hstar
    have hv : v ≠ '*' := fun h => hstar (h ▸ List.mem_cons_self v vr)
    have hvr : '*' ∉ vr := fun h => hstar (List.mem_cons_of_mem v h)
    cases w with
    | nil =>
      show (if v = '*' then _ else false) = true ↔ _
      rw [if_neg hv]
      simp
    | cons c cr =>
      show (if v = '*' then _ else if c = v then vncmp vr cr false else false) = true ↔ _
      rw [if_neg hv]
      by_cases hc : c = v
      · rw [if_pos hc, ih cr hvr]
        simp [hc]
      · rw [if_neg hc]
        simp [hc]

/-- Star in the middle: `pre*post` accepts exactly the prefixes of
`pre ++ post` that are at least `pre` long. -/
theorem vncmp_mid (pre : List Char) : ∀ (post w : List Char),
    '*' ∉ pre → '*' ∉ post → post ≠ [] →
    (vncmp (pre ++ '*' :: post) w false = true ↔
      (w <+: pre ++ post ∧ pre.length ≤ w.length)) := by
  induction pre with
  | nil =>
    intro post w _ hpost hne
    have hpe : post.isEmpty = false := by
      cases post with
      | nil => exact absurd rfl hne
      | cons a b => rfl
    cases w with
    | nil =>
      constructor
      · intro _
        exact ⟨⟨post, rfl⟩, by simp⟩
      · intro _
        show (if ('*' : Char) = '*' then
            if post.isEmpty || List.isEmpty [] then true else _ else _) = true
        rw [if_pos rfl]
        simp [hpe]
    | cons c cr =>
      show (if ('*' : Char) = '*' then
          if post.isEmpty || (c :: cr).isEmpty then true
          else vncmp post (c :: cr) true else _) = true ↔ _
      rw [if_pos rfl]
      simp only [hpe, List.isEmpty_cons, Bool.or_self, Bool.false_or,
        if_neg Bool.false_ne_true]
      rw [vncmp_true_iff post (c :: cr) hpost]
      simp
  | cons p pr ih =>
    intro post w hpre hpost hne
    have hp : p ≠ '*' := fun h => hpre (h ▸ List.mem_cons_self p pr)
    have hpr : '*' ∉ pr := fun h => hpre (List.mem_cons_of_mem p h)
    cases w with
    | nil =>
      constructor
      · intro h
        exact absurd h (by
          show ¬ ((if p = '*' then _ else false) = true)
          rw [if_neg hp]
          simp)
      · rintro ⟨-, hlen⟩
        simp at hlen
    | cons c cr =>
      show (if p = '*' then _
          else if c = p then vncmp (pr ++ '*' :: post) cr false else false) = true ↔ _
      rw [if_neg hp, List.cons_append, cons_pfx_cons]
      by_cases hc : c = p
      · rw [if_pos hc, ih post cr hpr hpost hne]
        simp [hc, Nat.succ_le_succ_iff]
      · rw [if_neg hc]
        simp [hc]

/-- Trailing star: `pre*` accepts exactly the candidates beginning with
`pre`. -/
theorem vncmp_trailing (pre : List Char) : ∀ (w : List Char), '*' ∉ pre →
    (vncmp (pre ++ ['*']) w false = true ↔ pre <+: w) := by
  induction pre with
  | nil =>
    intro w _
    constructor
    · intro _; exact ⟨w, rfl⟩
    · intro _
      show (if ('*' : Char) = '*' then
          if List.isEmpty [] || w.isEmpty then true else _ else _) = true
      rw [if_pos rfl]
      simp
  | cons p pr ih =>
    intro w hpre
    have hp : p ≠ '*' := fun h => hpre (h ▸ List.mem_cons_self p pr)
    have hpr : '*' ∉ pr := fun h => hpre (List.mem_cons_of_mem p h)
    cases w with
    | nil =>
      constructor
      · intro h
        exact absurd h (by
          show ¬ ((if p = '*' then _ else false) = true)
          rw [if_neg hp]
          simp)
      · rintro ⟨t, ht⟩; cases ht
    | cons c cr =>
      show (if p = '*' then _
          else if c = p then vncmp (pr ++ ['*']) cr false else false) = true ↔ _
      rw [if_neg hp, cons_pfx_cons]
      by_cases hc : c = p
      · rw [if_pos hc, ih cr hpr]
        simp [hc]
      · rw [if_neg hc]
        simp [hc, Ne.symm hc]

/-! ### Lemmas about ASCII-case-insensitive equality -/

/-- Lemma: `eq_ignore_ascii_case` holds exactly when the two strings agree after
ASCII lowercasing. -/
theorem eqIgnoreAsciiCase_iff_map (s : List Nat) : ∀ t : List Nat,
    (eqIgnoreAsciiCase s t = true ↔
      s.map toAsciiLowercase = t.map toAsciiLowercase) := by
  induction s with
  | nil =>
    intro t
    cases t with
    | nil => simp [eqIgnoreAsciiCase]
    | cons b t => simp [eqIgnoreAsciiCase]
  | cons a s ih =>
    intro t
    cases t with
    | nil => simp [eqIgnoreAsciiCase]
    | cons b t =>
      simp only [eqIgnoreAsciiCase, Bool.and_eq_true, decide_eq_true_eq,
        List.map_cons, List.cons.injEq]
      rw [ih t]

/-- Any per-character map that agrees with Unicode lowercasing on the
ASCII letters identifies two characters with the same ASCII lowercasing. -/
theorem lowercase_char_congr (g : Nat → List Nat)
    (hup : ∀ c, 65 ≤ c → c ≤ 90 → g c = [c + 32])
    (hlo : ∀ c, 97 ≤ c → c ≤ 122 → g c = [c]) :
    ∀ a b : Nat, toAsciiLowercase a = toAsciiLowercase b → g a = g b := by
  intro a b h
  unfold toAsciiLowercase at h
  by_cases ha : 65 ≤ a ∧ a ≤ 90 <;> by_cases hb : 65 ≤ b ∧ b ≤ 90
  · rw [if_pos ha, if_pos hb] at h
    have : a = b := by omega
    rw [this]
  · rw [if_pos ha, if_neg hb] at h
    rw [hup a ha.1 ha.2, hlo b (by omega) (by omega), h]
  · rw [if_neg ha, if_pos hb] at h
    rw [hlo a (by omega) (by omega), hup b hb.1 hb.2, h]
  · rw [if_neg ha, if_neg hb] at h
    rw [h]

/-- Pointwise-identified strings have the same flatMap image. -/
theorem flatMap_congr_of_map_eq (g : Nat → List Nat) (f : Nat → Nat)
    (hgf : ∀ a b : Nat, f a = f b → g a = g b) :
    ∀ s t : List Nat, s.map f = t.map f → s.flatMap g = t.flatMap g := by
  intro s
  induction s with
  | nil =>
    intro t h
    cases t with
    | nil => rfl
    | cons b t => cases h
  | cons a s ih =>
    intro t h
    cases t with
    | nil => cases h
    | cons b t =>
      simp only [List.map_cons, List.cons.injEq] at h
      simp only [List.flatMap_cons]
      rw [hgf a b h.1, ih t h.2]

/-! ### Lemmas about `caller_perms` -/

/-- The skip-one-after-filter computation equals the
first-non-built-in-below-the-topmost-non-built-in description. -/
theorem caller_perms_eq_amended (stackTopFirst : List Activation) :
    caller_perms stackTopFirst = caller_perms_amended stackTopFirst := by
  induction stackTopFirst with
  | nil => rfl
  | cons a rest ih =>
    by_cases hb : a.bfIndex.isNone
    · simp [caller_perms, caller_perms_amended, topmostNonBf, hb]
    · simp only [caller_perms, caller_perms_amended, topmostNonBf,
        List.filter_cons, hb] at ih ⊢
      simp only [if_neg hb, Bool.false_eq_true]
      exact ih

/-! ### A witness-producing instantiation for the commit loop -/

/-- Full behaviour of the `Transaction::commit` retry loop, parameterised
by the remaining retry budget `k` (the loop may recurse while
`tries + 1 ≤ 3`, i.e. `k = 3 - tries` more times). -/
theorem commitLoop_spec (attempt : Nat → AttemptResult) :
    ∀ (k tries idx : Nat), tries + k = 3 →
      (idx < (commitLoop attempt tries idx).2 ∧
        (commitLoop attempt tries idx).2 ≤ idx + k + 1) ∧
      (∀ i, idx ≤ i → i + 1 < (commitLoop attempt tries idx).2 →
        attempt i = AttemptResult.contention) ∧
      ((∀ i, idx ≤ i → i < idx + k + 1 → attempt i = AttemptResult.contention) →
        commitLoop attempt tries idx =
          (Except.error CommitError.RelationContentionConflict, idx + k + 1)) ∧
      (∀ i, idx ≤ i → i < (commitLoop attempt tries idx).2 →
        attempt i = AttemptResult.versionConflict →
        commitLoop attempt tries idx =
          (Except.error CommitError.TupleVersionConflict, i + 1)) := by
  intro k
  induction k with
  | zero =>
    intro tries idx htr
    have h3 : tries = 3 := by omega
    subst h3
    cases hA : attempt idx with
    | success =>
      have he : commitLoop attempt 3 idx = (Except.ok (), idx + 1) := by
        rw [commitLoop, hA]
      rw [he]
      refine ⟨⟨by omega, by omega⟩, ?_, ?_, ?_⟩
      · intro i hi1 hi2
        simp only at hi2
        omega
      · intro hcon
        have := hcon idx (le_refl idx) (by omega)
        rw [hA] at this
        cases this
      · intro i hi1 hi2 hv
        simp only at hi2
        have : i = idx := by omega
        subst this
        rw [hA] at hv
        cases hv
    | versionConflict =>
      have he : commitLoop attempt 3 idx =
          (Except.error CommitError.TupleVersionConflict, idx + 1) := by
        rw [commitLoop, hA]
      rw [he]
      refine ⟨⟨by omega, by omega⟩, ?_, ?_, ?_⟩
      · intro i hi1 hi2
        simp only at hi2
        omega
      · intro hcon
        have := hcon idx (le_refl idx) (by omega)
        rw [hA] at this
        cases this
      · intro i hi1 hi2 hv
        simp only at hi2
        have : i = idx := by omega
        subst this
        rfl
    | contention =>
      have he : commitLoop attempt 3 idx =
          (Except.error CommitError.RelationContentionConflict, idx + 1) := by
        rw [commitLoop, hA]
        norm_num
      rw [he]
      refine ⟨⟨by omega, by omega⟩, ?_, ?_, ?_⟩
      · intro i hi1 hi2
        simp only at hi2
        omega
      · intro _
        rfl
      · intro i hi1 hi2 hv
        simp only at hi2
        have : i = idx := by omega
        subst this
        rw [hA] at hv
        cases hv
  | succ k ih =>
    intro tries idx htr
    cases hA : attempt idx with
    | success =>
      have he : commitLoop attempt tries idx = (Except.ok (), idx + 1) := by
        rw [commitLoop, hA]
      rw [he]
      refine ⟨⟨by omega, by omega⟩, ?_, ?_, ?_⟩
      · intro i hi1 hi2
        simp only at hi2
        omega
      · intro hcon
        have := hcon idx (le_refl idx) (by omega)
        rw [hA] at this
        cases this
      · intro i hi1 hi2 hv
        simp only at hi2
        have : i = idx := by omega
        subst this
        rw [hA] at hv
        cases hv
    | versionConflict =>
      have he : commitLoop attempt tries idx =
          (Except.error CommitError.TupleVersionConflict, idx + 1) := by
        rw [commitLoop, hA]
      rw [he]
      refine ⟨⟨by omega, by omega⟩, ?_, ?_, ?_⟩
      · intro i hi1 hi2
        simp only at hi2
        omega
      · intro hcon
        have := hcon idx (le_refl idx) (by omega)
        rw [hA] at this
        cases this
      · intro i hi1 hi2 hv
        simp only at hi2
        have : i = idx := by omega
        subst this
        rfl
    | contention =>
      have hnot : ¬ (tries + 1 > 3) := by omega
      have he : commitLoop attempt tries idx =
          commitLoop attempt (tries + 1) (idx + 1) := by
        rw [commitLoop, hA]
        rw [if_neg hnot]
      have hrec := ih (tries + 1) (idx + 1) (by omega)
      rw [he]
      refine ⟨⟨by omega, by omega⟩, ?_, ?_, ?_⟩
      · intro i hi1 hi2
        rcases Nat.lt_or_ge i (idx + 1) with hlt | hge
        · have : i = idx := by omega
          subst this
          exact hA
        · exact hrec.2.1 i hge hi2
      · intro hcon
        have := hrec.2.2.1 (fun i h1 h2 => hcon i (by omega) (by omega))
        rw [this]
        have harith : idx + 1 + k + 1 = idx + (k + 1) + 1 := by omega
        rw [harith]
      · intro i hi1 hi2 hv
        rcases Nat.lt_or_ge i (idx + 1) with hlt | hge
        · have : i = idx := by omega
          subst this
          rw [hA] at hv
          cases hv
        · exact hrec.2.2.2 i hge hi2 hv

/-! ### Lemmas about association-list maps and object sets -/

theorem lookupI_setI_self {α : Type} (m : List (Int × α)) (k : Int) (v : α) :
    lookupI (setI m k v) k = some v := by
  induction m with
  | nil => simp [setI, lookupI, List.find?]
  | cons p rest ih =>
    by_cases h : p.1 = k
    · simp [setI, h, lookupI, List.find?]
    · simp only [setI, if_neg h]
      simp only [lookupI, List.find?] at ih ⊢
      rw [decide_eq_false h]
      exact ih

theorem lookupI_setI_ne {α : Type} (m : List (Int × α)) (k k' : Int) (v : α)
    (hne : k' ≠ k) : lookupI (setI m k v) k' = lookupI m k' := by
  induction m with
  | nil =>
    simp [setI, lookupI, List.find?, decide_eq_false (Ne.symm hne)]
  | cons p rest ih =>
    by_cases h : p.1 = k
    · simp only [setI, if_pos h]
      simp only [lookupI, List.find?]
      rw [decide_eq_false (Ne.symm hne), decide_eq_false]
      rw [h]
      exact Ne.symm hne
    · simp only [setI, if_neg h]
      simp only [lookupI, List.find?] at ih ⊢
      by_cases h2 : p.1 = k'
      · rw [decide_eq_true h2]
      · rw [decide_eq_false h2]
        exact ih

theorem mem_withInserted (s : List Int) (x : Int) : x ∈ withInserted s x := by
  unfold withInserted
  by_cases h : x ∈ s
  · rw [if_pos h]; exact h
  · rw [if_neg h]
    exact List.mem_append_right s (List.mem_singleton.mpr rfl)

theorem not_mem_withRemoved (s : List Int) (x : Int) : x ∉ withRemoved s x := by
  unfold withRemoved
  intro h
  have := List.of_mem_filter h
  simp at this

/-- A `lookupI` hit names an entry of the list. -/
theorem lookupI_mem {α : Type} (m : List (Int × α)) (k : Int) (v : α)
    (h : lookupI m k = some v) : (k, v) ∈ m := by
  unfold lookupI at h
  cases hf : m.find? fun p => p.1 = k with
  | none => rw [hf] at h; cases h
  | some p =>
    rw [hf] at h
    have hp := List.find?_some hf
    have hm := List.mem_of_find?_eq_some hf
    simp only [decide_eq_true_eq] at hp
    have hv : p.2 = v := by
      simpa using h
    have : p = (k, v) := by
      cases p
      simp only at hp hv
      rw [hp, hv]
    rw [this] at hm
    exact hm

/-! ### The recursive-move walk against location-chain reachability -/

/-- A terminating walk that answers `true` exhibits a location chain from
the start to `what`. -/
theorem recCheck_true_rtg (st : LocState) (what : Int) :
    ∀ (fuel : Nat) (start : Int), recCheck st what fuel start = some true →
      Relation.ReflTransGen (locStep st) start what := by
  intro fuel
  induction fuel with
  | zero => intro start h; cases h
  | succ f ih =>
    intro start h
    unfold recCheck at h
    by_cases h0 : start = NOTHING
    · rw [if_pos h0] at h; cases h
    · rw [if_neg h0] at h
      by_cases h1 : start = what
      · rw [h1]
      · rw [if_neg h1] at h
        exact Relation.ReflTransGen.head ⟨h0, rfl⟩ (ih _ h)
/-- A terminating walk that answers `false` excludes any location chain
from the start to `what` (given `what` is a real object). -/
theorem recCheck_false_not_rtg (st : LocState) (what : Int)
    (hwhat : what ≠ NOTHING) :
    ∀ (fuel : Nat) (start : Int), recCheck st what fuel start = some false →
      ¬ Relation.ReflTransGen (locStep st) start what := by
  intro fuel
  induction fuel with
  | zero => intro start h; cases h
  | succ f ih =>
    intro start h hr
    unfold recCheck at h
    by_cases h0 : start = NOTHING
    · rcases Relation.ReflTransGen.cases_head hr with heq | ⟨c, hstep, _⟩
      · exact hwhat (heq ▸ h0)
      · exact hstep.1 h0
    · rw [if_neg h0] at h
      by_cases h1 : start = what
      · rw [if_pos h1] at h; cases h
      · rw [if_neg h1] at h
        rcases Relation.ReflTransGen.cases_head hr with heq | ⟨c, hstep, htail⟩
        · exact h1 heq
        · have hc : c = get_object_location st start := hstep.2.symm
          exact ih (get_object_location st start) h (hc ▸ htail)

/-! ### Divergence of the descendant scan on a child cycle -/

/-- When an object lists itself among its children, the descendant scan
never terminates, whatever the fuel. -/
theorem descLoop_self_cycle (st : ObjState) (x : Int)
    (hx : childrenOf st x = [x]) :
    ∀ (m : Nat) (q acc : List Int), descLoop st m (x :: q) acc = none := by
  intro m
  induction m with
  | zero => intro q acc; rfl
  | succ k ih =>
    intro q acc
    show descLoop st (k + 1) (x :: q) acc = none
    rw [descLoop, hx]
    exact ih q (acc ++ [x])

/-! ## Claim theorems -/

/-- Claim C1 (code bug shown). The claim says a request whose token embeds
a different client id than the frame always gets `PermissionDenied`, even
when the same token string was validated for another client id within the
preceding 60 seconds. In the code the cache fast path of
`validate_client_token` returns `Ok` for any sub-60-second cache entry
without comparing client ids: with token `0` embedding client id `1` and
cached 10 seconds ago, a request from client id `2` is accepted, while the
same request against an empty cache is denied. -/
theorem C1_token_cache_bypasses_client_check :
    validate_client_token (fun t => if t = 0 then some 1 else none) 10
        ⟨[(0, 0)]⟩ 0 2 = Except.ok ⟨[(0, 0)]⟩ ∧
    validate_client_token (fun t => if t = 0 then some 1 else none) 10
        ⟨[]⟩ 0 2 = Except.error RpcMessageError.PermissionDenied := by
  constructor
  · rfl
  · rfl

/-- Claim C5 (code bug shown). The claim says `insert` on a transient
relation succeeds when no tuple with the domain key is present and fails
with `Duplicate` exactly when one is. In the code
`TransientRelation::insert_tuple` ends with
`.insert(..).map(|_| ()).ok_or(Duplicate)`, and `HashMap::insert` returns
the *previous* value — `None` on a fresh key — so every insert reports
`Duplicate`: on a present key via the guard, on an absent key via the
`ok_or`, even though the tuple is actually stored. -/
theorem C5_transient_insert_always_duplicate :
    (∀ (rel : TransientRel) (domain codomain : List Nat),
      (transient_insert_tuple rel domain codomain).1 =
        Except.error TupleError.Duplicate) ∧
    transient_insert_tuple [] [1] [2] =
      (Except.error TupleError.Duplicate, [([1], [2])]) := by
  constructor
  · intro rel d v
    unfold transient_insert_tuple hashMapInsert
    by_cases h : rel.any fun p => p.1 = d
    · rw [if_pos h]
    · rw [if_neg h]
      have hf : (rel.find? fun p => decide (p.1 = d)) = none := by
        rw [List.find?_eq_none]
        intro x hx hdec
        apply h
        rw [List.any_eq_true]
        exact ⟨x, hx, hdec⟩
      rw [hf]
      rfl
  · rfl

/-- Claim C7 (confirmed). `verbname_cmp` implements the specified wildcard
semantics: a name `pre*post` (single star, non-empty star-free parts)
accepts exactly the prefixes of `pre ++ post` of length at least
`|pre|`; a name `pre*` accepts exactly the candidates beginning with
`pre`; the bare name `*` accepts everything. -/
theorem C7_verbname_cmp_wildcards :
    (∀ pre post cand : List Char, '*' ∉ pre → '*' ∉ post →
        pre ≠ [] → post ≠ [] →
        (verbname_cmp (pre ++ '*' :: post) cand = true ↔
          (cand <+: pre ++ post ∧ pre.length ≤ cand.length))) ∧
    (∀ pre cand : List Char, '*' ∉ pre →
        (verbname_cmp (pre ++ ['*']) cand = true ↔ pre <+: cand)) ∧
    (∀ cand : List Char, verbname_cmp ['*'] cand = true) := by
  refine ⟨?_, ?_, ?_⟩
  · intro pre post cand h1 h2 _ h4
    exact vncmp_mid pre post cand h1 h2 h4
  · intro pre cand h1
    exact vncmp_trailing pre cand h1
  · intro cand
    cases cand with
    | nil => rfl
    | cons c cr => rfl

/-- Witness for C7 at the spec scenario `foo*bar` / `foo*` / `*`. -/
theorem C7_verbname_cmp_wildcards_witness :
    verbname_cmp ['f', 'o', 'o', '*', 'b', 'a', 'r'] ['f', 'o', 'o', 'b'] = true ∧
    verbname_cmp ['f', 'o', 'o', '*'] ['f', 'o', 'o', 'd'] = true ∧
    verbname_cmp ['*'] ['x'] = true := by
  refine ⟨?_, ?_, C7_verbname_cmp_wildcards.2.2 ['x']⟩
  · exact (C7_verbname_cmp_wildcards.1 ['f', 'o', 'o'] ['b', 'a', 'r']
      ['f', 'o', 'o', 'b'] (by decide) (by decide) (by decide) (by decide)).mpr
      (by constructor
          · exact ⟨['a', 'r'], rfl⟩
          · decide)
  · exact (C7_verbname_cmp_wildcards.2.1 ['f', 'o', 'o'] ['f', 'o', 'o', 'd']
      (by decide)).mpr ⟨['d'], rfl⟩

/-- Counterexample to claim C8 as stated: with the synthetic frame of a
built-in on top of the stack and two verb frames below it (permissions 5
and 7 top-down), `caller_perms` returns 7, not the permissions 5 of the
first non-built-in frame strictly below the top frame. -/
theorem C8_caller_perms_counterexample :
    caller_perms [⟨some 0, 99⟩, ⟨none, 5⟩, ⟨none, 7⟩] = 7 ∧
    caller_perms_claimed [⟨some 0, 99⟩, ⟨none, 5⟩, ⟨none, 7⟩] = 5 ∧
    (7 : Int) ≠ 5 := by
  refine ⟨rfl, rfl, by decide⟩

/-- Claim C8 (amended): `caller_perms` returns the permissions of the
first non-built-in frame strictly below the *topmost non-built-in* frame
(`NOTHING` when no such frame exists); when the top frame itself is not a
built-in this coincides with the first non-built-in frame strictly below
the top frame, as the original claim says. -/
theorem C8_caller_perms_below_topmost_non_builtin :
    ∀ stackTopFirst : List Activation,
      caller_perms stackTopFirst = caller_perms_amended stackTopFirst ∧
      (∀ top rest, stackTopFirst = top :: rest → top.bfIndex = none →
        caller_perms stackTopFirst = caller_perms_claimed stackTopFirst) := by
  intro stack
  refine ⟨caller_perms_eq_amended stack, ?_⟩
  rintro top rest rfl htop
  simp [caller_perms, caller_perms_claimed, List.filter_cons, htop]

/-- Witness for C8 at a concrete two-frame stack with a non-built-in
top. -/
theorem C8_caller_perms_below_topmost_non_builtin_witness :
    caller_perms [⟨none, 5⟩, ⟨none, 7⟩] =
      caller_perms_amended [⟨none, 5⟩, ⟨none, 7⟩] ∧
    caller_perms [⟨none, 5⟩, ⟨none, 7⟩] =
      caller_perms_claimed [⟨none, 5⟩, ⟨none, 7⟩] :=
  ⟨(C8_caller_perms_below_topmost_non_builtin [⟨none, 5⟩, ⟨none, 7⟩]).1,
   (C8_caller_perms_below_topmost_non_builtin [⟨none, 5⟩, ⟨none, 7⟩]).2
     ⟨none, 5⟩ [⟨none, 7⟩] rfl rfl⟩

/-- Claim C9 (confirmed). Command submission resolves the verb by probing,
in order, the player, the player's location, the parsed direct object and
the parsed indirect object; the task is started against the first object
with a match, and when none of the four matches the submission returns
`NoCommandMatch` (and hence never reaches task creation). -/
theorem C9_submit_command_search_order :
    ∀ {V : Type} (find : Int → Option V) (player loc dobj iobj : Int),
      submit_command_task find player loc dobj iobj =
        match firstCommandMatch find player loc dobj iobj with
        | some r => Except.ok r
        | none => Except.error SchedulerError.NoCommandMatch := by
  intro V find p l d i
  cases hp : find p <;> cases hl : find l <;> cases hd : find d <;>
    cases hi : find i <;>
      simp [submit_command_task, firstCommandMatch, List.findSome?, hp, hl, hd, hi]

/-- Claim C10 (confirmed). MOO string equality is ASCII-case-insensitive:
`Str` values compare equal exactly when they agree after ASCII
lowercasing, and the `Hash` implementation — which hashes the Unicode
lowercasing of the stored text, abstracted by any per-character map `g`
agreeing with Unicode lowercasing on the ASCII letters — is a congruence
for that equality. Storage is untouched: equal values may have different
byte content. -/
theorem C10_str_eq_ignore_ascii_case_hash_congruence :
    ∀ (g : Nat → List Nat),
      (∀ c, 65 ≤ c → c ≤ 90 → g c = [c + 32]) →
      (∀ c, 97 ≤ c → c ≤ 122 → g c = [c]) →
      ∀ s t : List Nat,
        (eqIgnoreAsciiCase s t = true ↔
          s.map toAsciiLowercase = t.map toAsciiLowercase) ∧
        (eqIgnoreAsciiCase s t = true →
          strHashInput g s = strHashInput g t) := by
  intro g hup hlo s t
  refine ⟨eqIgnoreAsciiCase_iff_map s t, ?_⟩
  intro h
  exact flatMap_congr_of_map_eq g toAsciiLowercase
    (lowercase_char_congr g hup hlo) s t ((eqIgnoreAsciiCase_iff_map s t).mp h)

/-- Witness for C10: `"FOO" == "foo"` as `Str` values, their byte contents
differ, and their hashes agree (with the per-character ASCII lowercase
map as `g`). -/
theorem C10_str_eq_ignore_ascii_case_hash_congruence_witness :
    eqIgnoreAsciiCase [70, 79, 79] [102, 111, 111] = true ∧
    ([70, 79, 79] : List Nat) ≠ [102, 111, 111] ∧
    strHashInput (fun c => [toAsciiLowercase c]) [70, 79, 79] =
      strHashInput (fun c => [toAsciiLowercase c]) [102, 111, 111] := by
  refine ⟨by decide, by decide, ?_⟩
  exact (C10_str_eq_ignore_ascii_case_hash_congruence
    (fun c => [toAsciiLowercase c])
    (fun c h1 h2 => by simp [toAsciiLowercase, h1, h2])
    (fun c h1 h2 => by
      simp only [toAsciiLowercase, List.cons.injEq, and_true]
      rw [if_neg (by omega)])
    [70, 79, 79] [102, 111, 111]).2 (by decide)

/-- The tail of `set_object_parent` returns nothing when the descendant
scan over the updated children index never terminates. -/
theorem sopFinish_none (fuel : Nat) (st : ObjState) (o np : Int)
    (na : List Int) (dp : List (Int × List PropDef)) (hnp : ¬ np = NOTHING)
    (hd : descendants
      (update_object_children { st with parent := setI st.parent o np } np
        (withInserted (childrenOf { st with parent := setI st.parent o np } np) o))
      fuel o = none) :
    sopFinish fuel st o np na dp = none := by
  unfold sopFinish
  rw [if_neg hnp]
  simp only [hd]

/-- Claim C2 (code bug shown). The claim says a successful
`set_object_parent` updates the persisted propdef set of every descendant.
Take objects `#1 ← #2 ← #3` (`#1` defines propdef `{uuid 10}`, inherited
into the propdef sets of `#2` and `#3`, with a stored value on `#3`) and a
propertyless `#4`; reparent `#2` to `#4`. The call succeeds and the severed
propdef must leave `#3`; but the final loop of the source persists every
computed list under `o` (`self.update_propdefs(o, c_props)` instead of
`c`), so `#3` keeps propdef `{uuid 10, definer #1}` in its persisted set
(while its stored value was cleared). -/
theorem C2_reparent_leaves_descendant_propdefs :
    (set_object_parent 10
      { parent := [(2, 1), (3, 2)],
        children := [(1, [2]), (2, [3]), (3, []), (4, [])],
        propdefs := [(1, [⟨10, 1⟩]), (2, [⟨10, 1⟩]), (3, [⟨10, 1⟩]), (4, [])],
        propvals := [((3, 10), 42)] } 2 4).map
      (fun r => (r.1, getParent r.2 2, getPropdefs r.2 3, propValOf r.2 3 10)) =
    some (Except.ok (), 4, [⟨10, 1⟩], none) := by decide

/-- Claim C3 (code bug shown). The claim says `set_object_parent(o, p)`
with `p` equal to `o` or a transitive child of `o` either fails or leaves
`ObjectParent` acyclic. The source performs no recursive-parenting check
at all: called on a fresh object `#2` with `new_parent = #2` it writes the
cyclic edge `parent(#2) = #2` and `children(#2) = {#2}` into the
transaction and then loops forever in the second `descendants` scan — for
every fuel the embedding returns no result, i.e. the call neither fails
nor returns with an acyclic relation. -/
theorem C3_set_parent_cycle_unchecked_diverges :
    ∀ fuel : Nat,
      set_object_parent fuel ⟨[], [(2, [])], [], []⟩ 2 2 = none := by
  intro fuel
  match fuel with
  | 0 => rfl
  | 1 => rfl
  | (n + 2) =>
    show set_object_parent (n + 1 + 1) ⟨[], [(2, [])], [], []⟩ 2 2 = none
    have hfin : sopFinish (n + 1 + 1) ⟨[], [(2, [])], [(2, [])], []⟩ 2 2 [2] [] =
        none :=
      sopFinish_none (n + 1 + 1) ⟨[], [(2, [])], [(2, [])], []⟩ 2 2 [2] []
        (by decide)
        (descLoop_self_cycle ⟨[(2, 2)], [(2, [2])], [(2, [])], []⟩ 2 rfl
          (n + 1 + 1) [] [])
    exact hfin

/-- Claim C6 (confirmed). `Transaction::commit` terminates for every
working set with at most four prepare/apply attempts; an attempt is
repeated only after a `RelationContentionConflict`; four consecutive
contentions surface `RelationContentionConflict`; a `TupleVersionConflict`
is returned immediately, with no further attempt. -/
theorem C6_commit_retry_bounded :
    ∀ attempt : Nat → AttemptResult,
      (Transaction.commit attempt).2 ≤ 4 ∧
      (∀ i, i + 1 < (Transaction.commit attempt).2 →
        attempt i = AttemptResult.contention) ∧
      ((∀ i, i < 4 → attempt i = AttemptResult.contention) →
        Transaction.commit attempt =
          (Except.error CommitError.RelationContentionConflict, 4)) ∧
      (∀ i, i < (Transaction.commit attempt).2 →
        attempt i = AttemptResult.versionConflict →
        Transaction.commit attempt =
          (Except.error CommitError.TupleVersionConflict, i + 1)) := by
  intro attempt
  have h := commitLoop_spec attempt 3 0 0 rfl
  unfold Transaction.commit
  refine ⟨?_, ?_, ?_, ?_⟩
  · have := h.1.2
    omega
  · intro i hi
    exact h.2.1 i (Nat.zero_le i) hi
  · intro hcon
    have := h.2.2.1 fun i _ hi => hcon i (by omega)
    simpa using this
  · intro i hi hv
    exact h.2.2.2 i (Nat.zero_le i) hi hv

/-- Witness for C6: four straight contentions yield
`RelationContentionConflict` after exactly four attempts; an immediate
version conflict is surfaced after one. -/
theorem C6_commit_retry_bounded_witness :
    Transaction.commit (fun _ => AttemptResult.contention) =
      (Except.error CommitError.RelationContentionConflict, 4) ∧
    Transaction.commit (fun _ => AttemptResult.versionConflict) =
      (Except.error CommitError.TupleVersionConflict, 1) :=
  ⟨(C6_commit_retry_bounded (fun _ => AttemptResult.contention)).2.2.1
      (fun _ _ => rfl),
   (C6_commit_retry_bounded (fun _ => AttemptResult.versionConflict)).2.2.2 0
      (by
        have := (C6_commit_retry_bounded
          (fun _ => AttemptResult.versionConflict)).2.2.2
        exact Nat.lt_of_lt_of_le Nat.zero_lt_one
          (Nat.le_of_lt_succ (Nat.lt_succ_of_le
            (Nat.one_le_iff_ne_zero.mpr (by
              intro hz
              have h1 := commitLoop_spec (fun _ => AttemptResult.versionConflict) 3 0 0 rfl
              have := h1.1.1
              unfold Transaction.commit at hz
              omega)))))
      rfl⟩

/-! ### Lemmas about `solProceed` -/

theorem solProceed_fst (st : LocState) (what nl : Int) :
    (solProceed st what nl).1 = Except.ok () := by
  unfold solProceed
  by_cases h : nl = NOTHING
  · rw [if_pos h]
  · rw [if_neg h]

theorem solProceed_loc (st : LocState) (what nl : Int) :
    get_object_location (solProceed st what nl).2 what = nl := by
  unfold solProceed
  by_cases h : nl = NOTHING
  · rw [if_pos h]
    show (lookupI (setI st.location what nl) what).getD NOTHING = nl
    rw [lookupI_setI_self]
    rfl
  · rw [if_neg h]
    show (lookupI (setI st.location what nl) what).getD NOTHING = nl
    rw [lookupI_setI_self]
    rfl

theorem solProceed_mem (st : LocState) (what nl : Int) (h : nl ≠ NOTHING) :
    what ∈ contentsOf (solProceed st what nl).2 nl := by
  unfold solProceed
  rw [if_neg h]
  show what ∈ (lookupI (setI st.contents nl _) nl).getD []
  rw [lookupI_setI_self]
  exact mem_withInserted _ what

theorem solProceed_contents_other (st : LocState) (what nl l : Int)
    (hl : l ≠ nl) : contentsOf (solProceed st what nl).2 l = contentsOf st l := by
  unfold solProceed
  by_cases h : nl = NOTHING
  · rw [if_pos h]
    rfl
  · rw [if_neg h]
    show (lookupI (setI st.contents nl _) l).getD [] = _
    rw [lookupI_setI_ne _ _ _ _ hl]
    rfl

/-- A stored location different from `NOTHING` is an actual entry of the
location column family. -/
theorem location_entry_of_ne (st : LocState) (what : Int)
    (h : get_object_location st what ≠ NOTHING) :
    (what, get_object_location st what) ∈ st.location := by
  unfold get_object_location at *
  cases hlk : lookupI st.location what with
  | none => rw [hlk] at h; exact absurd rfl h
  | some v =>
    show (what, v) ∈ st.location
    exact lookupI_mem st.location what v hlk

/-- Claim C4 (confirmed). In any state whose location chain above the
target terminates (`recCheck` answers within the fuel; guaranteed by the
location-forest invariant) and whose contents index covers the forward
map, `set_object_location(what, new_location)` fails with `RecursiveMove`
exactly when the new location is `what` itself or reaches `what` by
following the location chain upward (the reflexive-transitive closure of
`locStep` from `new_location`); on failure nothing is modified, and on
success `location(what) = new_location`, `what` is in the new location
contents set, and is no longer in its old location contents set. -/
theorem C4_set_object_location_recursive_move :
    ∀ (st : LocState) (what new_location : Int) (fuel : Nat),
      what ≠ NOTHING →
      recCheck st what fuel new_location ≠ none →
      (∀ p ∈ st.location, p.2 ≠ NOTHING → p.1 ∈ contentsOf st p.2) →
      ∃ (r : Except WorldStateError Unit) (st' : LocState),
        set_object_location fuel st what new_location = some (r, st') ∧
        ((r = Except.error (WorldStateError.RecursiveMove what new_location)) ↔
          Relation.ReflTransGen (locStep st) new_location what) ∧
        (r ≠ Except.ok () →
          st' = st ∧
          r = Except.error (WorldStateError.RecursiveMove what new_location)) ∧
        (r = Except.ok () →
          get_object_location st' what = new_location ∧
          (new_location ≠ NOTHING → what ∈ contentsOf st' new_location) ∧
          (get_object_location st what ≠ NOTHING →
            get_object_location st what ≠ new_location →
            what ∉ contentsOf st' (get_object_location st what))) := by
  intro st what nl fuel hwhat hterm hinv
  cases hrc : recCheck st what fuel nl with
  | none => exact absurd hrc hterm
  | some b =>
    cases b with
    | true =>
      refine ⟨Except.error (WorldStateError.RecursiveMove what nl), st, ?_, ?_, ?_, ?_⟩
      · unfold set_object_location
        simp only [hrc]
      · exact iff_of_true rfl (recCheck_true_rtg st what fuel nl hrc)
      · intro _
        exact ⟨rfl, rfl⟩
      · intro hok
        cases hok
    | false =>
      have hnot : ¬ Relation.ReflTransGen (locStep st) nl what :=
        recCheck_false_not_rtg st what hwhat fuel nl hrc
      by_cases hold : get_object_location st what = NOTHING
      · refine ⟨Except.ok (), (solProceed st what nl).2, ?_, ?_, ?_, ?_⟩
        · unfold set_object_location
          simp only [hrc]
          rw [if_pos hold, ← solProceed_fst st what nl]
        · exact iff_of_false (by simp) hnot
        · intro hne
          exact absurd rfl hne
        · intro _
          refine ⟨solProceed_loc st what nl,
            fun hnl => solProceed_mem st what nl hnl, ?_⟩
          intro h1 _
          exact absurd hold h1
      · by_cases holdnl : get_object_location st what = nl
        · refine ⟨Except.ok (), st, ?_, ?_, ?_, ?_⟩
          · unfold set_object_location
            simp only [hrc]
            rw [if_neg hold, if_pos holdnl]
          · exact iff_of_false (by simp) hnot
          · intro hne
            exact absurd rfl hne
          · intro _
            refine ⟨holdnl, ?_, ?_⟩
            · intro hnl
              have hmem := hinv (what, get_object_location st what)
                (location_entry_of_ne st what hold) hold
              rw [holdnl] at hmem
              exact hmem
            · intro _ h2
              exact absurd holdnl h2
        · have hmem := hinv (what, get_object_location st what)
            (location_entry_of_ne st what hold) hold
          cases hc : lookupI st.contents (get_object_location st what) with
          | none =>
            exfalso
            unfold contentsOf at hmem
            rw [hc] at hmem
            cases hmem
          | some oldSet =>
            refine ⟨Except.ok (),
              (solProceed
                { st with
                  contents :=
                    setI st.contents (get_object_location st what)
                      (withRemoved oldSet what) }
                what nl).2, ?_, ?_, ?_, ?_⟩
            · unfold set_object_location
              simp only [hrc]
              rw [if_neg hold, if_neg holdnl]
              simp only [hc]
              rw [← solProceed_fst
                { st with
                  contents :=
                    setI st.contents (get_object_location st what)
                      (withRemoved oldSet what) }
                what nl]
            · exact iff_of_false (by simp) hnot
            · intro hne
              exact absurd rfl hne
            · intro _
              refine ⟨solProceed_loc _ what nl,
                fun hnl => solProceed_mem _ what nl hnl, ?_⟩
              intro _ h2
              rw [solProceed_contents_other _ what nl _ h2]
              show what ∉ (lookupI (setI st.contents (get_object_location st what)
                (withRemoved oldSet what)) (get_object_location st what)).getD []
              rw [lookupI_setI_self]
              exact not_mem_withRemoved oldSet what

/-- Witness for C4: object `#1` sitting in `#2` is moved to the empty room
`#3` (fuel 3 suffices for the walk; the contents index covers the
location map). -/
theorem C4_set_object_location_recursive_move_witness :
    ((1 : Int) ≠ NOTHING ∧
     recCheck ⟨[(1, 2)], [(2, [1]), (3, [])]⟩ 1 3 3 ≠ none ∧
     (∀ p ∈ ([(1, 2)] : List (Int × Int)), p.2 ≠ NOTHING →
        p.1 ∈ contentsOf ⟨[(1, 2)], [(2, [1]), (3, [])]⟩ p.2)) ∧
    ∃ (r : Except WorldStateError Unit) (st' : LocState),
      set_object_location 3 ⟨[(1, 2)], [(2, [1]), (3, [])]⟩ 1 3 = some (r, st') ∧
      ((r = Except.error (WorldStateError.RecursiveMove 1 3)) ↔
        Relation.ReflTransGen (locStep ⟨[(1, 2)], [(2, [1]), (3, [])]⟩) 3 1) ∧
      (r ≠ Except.ok () →
        st' = ⟨[(1, 2)], [(2, [1]), (3, [])]⟩ ∧
        r = Except.error (WorldStateError.RecursiveMove 1 3)) ∧
      (r = Except.ok () →
        get_object_location st' 1 = 3 ∧
        ((3 : Int) ≠ NOTHING → 1 ∈ contentsOf st' 3) ∧
        (get_object_location ⟨[(1, 2)], [(2, [1]), (3, [])]⟩ 1 ≠ NOTHING →
          get_object_location ⟨[(1, 2)], [(2, [1]), (3, [])]⟩ 1 ≠ 3 →
          1 ∉ contentsOf st' (get_object_location ⟨[(1, 2)], [(2, [1]), (3, [])]⟩ 1))) :=
  ⟨⟨by decide, by decide, by decide⟩,
   C4_set_object_location_recursive_move ⟨[(1, 2)], [(2, [1]), (3, [])]⟩ 1 3 3
     (by decide) (by decide) (by decide)⟩
